import Mathlib

/-!
# stacking-go: the upload-and-convert pipeline of `main.go`

A shallow embedding of the helpers of `main.go` (`sanitize`, `randHex`,
`saveUpload`, `runFFmpeg`, `handleUploadAndConvert`, the two tool handlers)
together with the parts of the Go standard library they call
(`strings`, `unicode`, `path/filepath` on a Unix host, `encoding/hex`).

Strings.  A Go string is a byte sequence read as UTF-8.  It is modelled by the
sequence of runes that `for _, r := range s` yields (an invalid byte yields
U+FFFD, which is a `Char` like any other).  Every function used by the program
either works rune by rune, or looks only for the ASCII bytes `'.'`, `'/'` and
`' '`, which in UTF-8 never occur inside a longer sequence, so the rune view
loses nothing.  All generated names are ASCII, where rune count and byte count
agree.

Effects.  Files and processes are modelled by an event log that the
operations extend, and by an environment record that fixes what the outside
world answers during one request.
-/

namespace Stacking

/-- A Go string, as its sequence of runes. -/
abbrev GoString := List Char

/-! ## Unicode tables -/

/-- The part of Go's Unicode case tables that depends on the Unicode version
shipped with the toolchain.  The entries that touch ASCII are fixed in the
definitions below and are not part of this record.

* `lower r` is `unicode.ToLower r` for a non-ASCII rune `r` other than
  U+0130 and U+212A; those two are the only non-ASCII runes whose lower-case
  form is ASCII, hence `lower_high`.
* `sameOrbit a b` tells whether `b` is reached from `a` by stepping
  `unicode.SimpleFold`, for two distinct non-ASCII runes `a < b`. -/
structure UnicodeTables where
  lower : Char → Char
  lower_high : ∀ r : Char, 128 ≤ r.toNat → 128 ≤ (lower r).toNat
  sameOrbit : Char → Char → Bool

/-- A small instance of the tables: the Latin-1 letters U+00C0..U+00DE
(without the multiplication sign U+00D7) fold onto U+00E0..U+00FE; no other
entry. -/
def UnicodeTables.latin1 : UnicodeTables where
  lower r :=
    if 0xC0 ≤ r.toNat ∧ r.toNat ≤ 0xDE ∧ r.toNat ≠ 0xD7 then Char.ofNat (r.toNat + 32) else r
  lower_high r h := by
    show 128 ≤ (if 0xC0 ≤ r.toNat ∧ r.toNat ≤ 0xDE ∧ r.toNat ≠ 0xD7
      then Char.ofNat (r.toNat + 32) else r).toNat
    split
    · rename_i hr
      have hv : (r.toNat + 32).isValidChar := by
        left
        omega
      have : (Char.ofNat (r.toNat + 32)).toNat = r.toNat + 32 := by
        simp only [Char.ofNat, hv, dite_true]
        rfl
      omega
    · exact h
  sameOrbit a b :=
    decide (0xC0 ≤ a.toNat ∧ a.toNat ≤ 0xDE ∧ a.toNat ≠ 0xD7 ∧ b.toNat = a.toNat + 32)

namespace unicode

/-- Go's `unicode.ToLower`.  ASCII takes the fast path of the library
(`'A'..'Z'` are shifted by `'a' - 'A'`); U+0130 (capital I with dot above) maps
to `'i'` and U+212A (Kelvin sign) maps to `'k'`; every other rune goes through
the case table. -/
def ToLower (U : UnicodeTables) (r : Char) : Char :=
  if r.toNat ≤ 127 then
    if 'A' ≤ r ∧ r ≤ 'Z' then Char.ofNat (r.toNat + 32) else r
  else if r.toNat = 0x130 then 'i'
  else if r.toNat = 0x212A then 'k'
  else U.lower r

end unicode

namespace strings

/-- Go's `strings.ToLower`: every rune mapped through `unicode.ToLower`. -/
def ToLower (U : UnicodeTables) (s : GoString) : GoString :=
  s.map (unicode.ToLower U)

/-- Scan of `strings.ReplaceAll` for a non-empty `old`: `skip` counts the runes
of a match that are still to be passed over. -/
def replaceScan (old new : GoString) : Nat → GoString → GoString
  | _, [] => []
  | skip + 1, _ :: cs => replaceScan old new skip cs
  | 0, c :: cs =>
    if old <+: c :: cs then new ++ replaceScan old new (old.length - 1) cs
    else c :: replaceScan old new 0 cs

/-- Go's `strings.ReplaceAll`: the non-overlapping occurrences of `old`, from
the left, replaced by `new`; an empty `old` matches before every rune and at
the end. -/
def ReplaceAll (s old new : GoString) : GoString :=
  if old = [] then new ++ s.flatMap (fun c => c :: new)
  else replaceScan old new 0 s

end strings

/-! ## `sanitize` (main.go, lines 210-221) -/

/-- The test of the loop of `sanitize`: the rune is kept. -/
def sanitizeKeeps (r : Char) : Prop :=
  (r ≥ 'a' ∧ r ≤ 'z') ∨ (r ≥ '0' ∧ r ≤ '9') ∨ r = '-' ∨ r = '_'

instance : DecidablePred sanitizeKeeps := fun r => by
  unfold sanitizeKeeps
  exact inferInstance

/-- The function `sanitize`: lower-case, spaces to dashes, then the loop that
writes the kept runes to the builder `b`. -/
def sanitize (U : UnicodeTables) (s : GoString) : GoString :=
  let s := strings.ToLower U s
  let s := strings.ReplaceAll s " ".toList "-".toList
  s.foldl (fun b r => if sanitizeKeeps r then b ++ [r] else b) []

/-- The sanitizer as the claim words it, rune by rune: a dash for a space, the
lower-case letter for `A-Z`, the rune itself for `a-z`, `0-9`, `-`, `_`, and
nothing for any other rune. -/
def specRune (r : Char) : GoString :=
  if r = ' ' then ['-']
  else if 'A' ≤ r ∧ r ≤ 'Z' then [Char.ofNat (r.toNat + 32)]
  else if sanitizeKeeps r then [r]
  else []

/-- The sanitizer of the specification: `specRune` over the runes in order. -/
def sanitizeSpec (s : GoString) : GoString :=
  s.flatMap specRune

/-- What the code writes for one rune: as `specRune`, and in addition `'i'`
for U+0130 and `'k'` for U+212A, which Unicode lower-casing sends to ASCII. -/
def sanitizeRune (r : Char) : GoString :=
  if r.toNat = 0x130 then ['i']
  else if r.toNat = 0x212A then ['k']
  else specRune r

/-! ## Library: `strings.TrimSuffix`, `strings.EqualFold` -/

namespace strings

/-- Go's `strings.TrimSuffix`: `s` without the trailing `suffix` when `s` ends
with it, `s` unchanged otherwise. -/
def TrimSuffix (s suffix : GoString) : GoString :=
  if suffix <:+ s then s.take (s.length - suffix.length) else s

/-- One rune pair of `strings.EqualFold`: equal runes; or, with `lo` the smaller
and `hi` the larger of the two, an ASCII pair of an upper-case letter and its
lower-case form; or a non-ASCII `hi` reached from `lo` by stepping
`unicode.SimpleFold`.  From an ASCII `lo` the library's `asciiFold` table
reaches exactly U+212A (from `K`, `k`) and U+017F (from `S`, `s`). -/
def foldEq (U : UnicodeTables) (sr tr : Char) : Bool :=
  if tr = sr then true
  else
    let lo := if tr < sr then tr else sr
    let hi := if tr < sr then sr else tr
    if hi.toNat < 128 then
      decide ('A' ≤ lo ∧ lo ≤ 'Z' ∧ hi.toNat = lo.toNat + 32)
    else if lo.toNat < 128 then
      decide (((lo = 'K' ∨ lo = 'k') ∧ hi.toNat = 0x212A)
        ∨ ((lo = 'S' ∨ lo = 's') ∧ hi.toNat = 0x17F))
    else U.sameOrbit lo hi

/-- Go's `strings.EqualFold`: the two strings have the same number of runes
and agree rune by rune under simple case folding. -/
def EqualFold (U : UnicodeTables) : GoString → GoString → Bool
  | [], [] => true
  | [], _ :: _ => false
  | _ :: _, [] => false
  | sr :: s, tr :: t => foldEq U sr tr && EqualFold U s t

end strings

/-! ## Library: `path/filepath` on a Unix host (separator `/`) -/

namespace filepath

/-- The backward scan of `filepath.Ext`: `rev` holds the bytes still to be
visited, last byte first, and `acc` the bytes already passed. -/
def extScan : GoString → GoString → GoString
  | [], _ => []
  | c :: rev, acc =>
    if c = '/' then []
    else if c = '.' then c :: acc
    else extScan rev (c :: acc)

/-- Go's `filepath.Ext`: the suffix beginning at the final dot of the final
element of `path`; empty if there is no dot. -/
def Ext (path : GoString) : GoString :=
  extScan path.reverse []

/-- The elements of a path between separators. -/
def splitSep : GoString → List GoString
  | [] => [[]]
  | c :: cs =>
    if c = '/' then [] :: splitSep cs
    else
      match splitSep cs with
      | [] => [[c]]
      | e :: es => (c :: e) :: es

/-- One path element through `filepath.Clean`; `out` holds the elements kept
so far, the latest first.  Empty and `.` elements vanish; `..` removes the
latest real element, is kept in front of a relative path and vanishes at the
root; any other element is kept. -/
def cleanStep (rooted : Bool) (out : List GoString) (e : GoString) : List GoString :=
  if e = [] ∨ e = ['.'] then out
  else if e = ['.', '.'] then
    match out with
    | [] => if rooted then [] else [e]
    | top :: below => if top = ['.', '.'] then (if rooted then out else e :: out) else below
  else e :: out

/-- Go's `filepath.Clean`: the shortest equivalent path by lexical
processing. -/
def Clean (path : GoString) : GoString :=
  let rooted := path.head? = some '/'
  let out := (splitSep path).foldl (cleanStep rooted) []
  let body := "/".toList.intercalate out.reverse
  let res := if rooted then '/' :: body else body
  if res = [] then ".".toList else res

/-- Go's `filepath.Join`: the elements from the first non-empty one on, joined
by the separator, then cleaned; the empty string if there is none. -/
def Join (elem : List GoString) : GoString :=
  match elem.dropWhile (fun e => decide (e = [])) with
  | [] => []
  | es => Clean ("/".toList.intercalate es)

end filepath

/-! ## Library: `encoding/hex` -/

namespace hex

/-- The digit table of `encoding/hex`. -/
def hextable : GoString := "0123456789abcdef".toList

/-- Go's `hex.EncodeToString`: two digits per byte, high nibble first. -/
def EncodeToString (src : List Nat) : GoString :=
  src.flatMap (fun v => [hextable.getD (v / 16 % 16) '0', hextable.getD (v % 16) '0'])

end hex

/-! ## The outside world -/

/-- A Go `error`, by its message. -/
abbrev GoError := GoString

deriving instance DecidableEq for Except

/-- The data handed to the page template by the handlers. -/
structure PageData where
  title : GoString
  description : GoString
  year : Nat
  outputFile : Option GoString
  contentBlock : GoString
deriving DecidableEq

/-- What the handlers do to the outside world, in the order they do it. -/
inductive Event where
  /-- The call `r.ParseMultipartForm` on the size-limited body -/
  | parseForm
  /-- The call `r.FormFile(field)` -/
  | formFile (field : GoString)
  /-- The call `os.Create(path)` -/
  | create (path : GoString)
  /-- The call `io.Copy` of the uploaded stream into the file created at `path` -/
  | copy (path : GoString)
  /-- The call `exec.Command(name, args...)` followed by `Run` -/
  | exec (name : GoString) (args : List GoString)
  /-- The call `ExecuteTemplate` of the page `template` on `data` -/
  | render (template : GoString) (data : PageData)
deriving DecidableEq

/-- What the outside world answers during one request. -/
structure Env where
  /-- Whether `r.ParseMultipartForm` returns no error -/
  parseOk : Bool
  /-- The declared `header.Filename` of the form file `video`; `none` if the field is missing -/
  filename : Option GoString
  /-- The byte that `crypto/rand` writes at each index of the buffer (read
  modulo 256); a failed read leaves the zero byte -/
  rnd : Nat → Nat
  /-- Whether `os.Create(path)` returns no error -/
  createOk : GoString → Bool
  /-- Whether `io.Copy` into the file at `path` returns no error -/
  copyOk : GoString → Bool
  /-- The error of `cmd.Run()`, if any -/
  run : GoString → List GoString → Option GoError
  /-- The value of `time.Now().Year()` -/
  year : Nat
  /-- The outcome of executing a page template: an error, or the page -/
  page : GoString → PageData → Except GoError GoString

/-- An HTTP response: status code and body. -/
structure Response where
  status : Nat
  body : GoString
deriving DecidableEq

/-- Go's `http.Error`: the status code and the message followed by a newline. -/
def httpError (error : GoString) (code : Nat) : Response :=
  ⟨code, error ++ "\n".toList⟩

/-- Whether an event is a process launch. -/
def Event.isExec : Event → Bool
  | .exec _ _ => true
  | _ => false

/-! ## `main.go` -/

/-- The constant `uploadDir`. -/
def uploadDir : GoString := "uploads".toList

/-- The function `randHex` (lines 223-227): `n` bytes from the random source,
hex-encoded. -/
def randHex (rnd : Nat → Nat) (n : Nat) : GoString :=
  let buf := (List.range n).map (fun i => rnd i % 256)
  hex.EncodeToString buf

/-- Lines 156-160 of `saveUpload`: the name taken from the declared
filename. -/
def uploadName (U : UnicodeTables) (filename : GoString) : GoString :=
  let name := strings.TrimSuffix filename (filepath.Ext filename)
  let name := sanitize U name
  if name = [] then "video".toList else name

/-- Line 161 of `saveUpload`: the unique base name built from `name`. -/
def uniqueBase (rnd : Nat → Nat) (name : GoString) : GoString :=
  name ++ "-".toList ++ randHex rnd 6

/-- The function `saveUpload` (lines 154-174); the result is the pair
`(fullPath, baseName)` or the error. -/
def saveUpload (U : UnicodeTables) (env : Env) (filename : GoString) (log : List Event) :
    Except GoError (GoString × GoString) × List Event :=
  let name := uploadName U filename
  let base := uniqueBase env.rnd name
  let full := filepath.Join [uploadDir, base ++ ".mov".toList]
  let log := log ++ [Event.create full]
  if env.createOk full = false then
    (.error "could not create file on server".toList, log)
  else
    let log := log ++ [Event.copy full]
    if env.copyOk full = false then
      (.error "failed saving uploaded file".toList, log)
    else
      (.ok (full, base), log)

/-- The function `runFFmpeg` (lines 176-208); the result is the error, if
any. -/
def runFFmpeg (env : Env) (inputPath outputPath target : GoString) (log : List Event) :
    Option GoError × List Event :=
  let args := ["-y".toList, "-i".toList, inputPath]
  let built : Except GoError (List GoString) :=
    if target = "mp4".toList then
      .ok (args ++ ["-vcodec".toList, "libx264".toList,
        "-preset".toList, "veryfast".toList,
        "-crf".toList, "23".toList,
        "-acodec".toList, "aac".toList,
        "-b:a".toList, "128k".toList,
        "-movflags".toList, "+faststart".toList,
        outputPath])
    else if target = "gif".toList then
      .ok (args ++ ["-vf".toList, "fps=10,scale=480:-1:flags=lanczos".toList,
        outputPath])
    else
      .error "unsupported target format".toList
  match built with
  | .error e => (some e, log)
  | .ok args => (env.run "ffmpeg".toList args, log ++ [Event.exec "ffmpeg".toList args])

/-- The function `handleUploadAndConvert` (lines 118-152); the result is the
output file name or the error. -/
def handleUploadAndConvert (U : UnicodeTables) (env : Env) (target : GoString)
    (log : List Event) : Except GoError GoString × List Event :=
  let log := log ++ [Event.parseForm]
  if env.parseOk = false then
    (.error "file too large (limit ~200MB)".toList, log)
  else
    let log := log ++ [Event.formFile "video".toList]
    match env.filename with
    | none => (.error "missing file field 'video'".toList, log)
    | some filename =>
      if strings.EqualFold U (filepath.Ext filename) ".mov".toList = false then
        (.error "only .mov files are allowed".toList, log)
      else
        match saveUpload U env filename log with
        | (.error err, log) => (.error err, log)
        | (.ok (inPath, baseName), log) =>
          let outName := baseName ++ ".".toList ++ target
          let outPath := filepath.Join [uploadDir, outName]
          match runFFmpeg env inPath outPath target log with
          | (some err, log) => (.error ("conversion failed: ".toList ++ err), log)
          | (none, log) => (.ok outName, log)

/-- The function `render` (lines 108-114): the page, or status 500 with the
message of the template error.  A template that fails to parse makes
`template.Must` abort the request; that case is not part of the model. -/
def render (env : Env) (contentTemplate : GoString) (data : PageData) (log : List Event) :
    Response × List Event :=
  let log := log ++ [Event.render contentTemplate data]
  match env.page contentTemplate data with
  | .error err => (httpError err 500, log)
  | .ok page => (⟨200, page⟩, log)

/-- The handler `movToMp4` (lines 54-79). -/
def movToMp4 (U : UnicodeTables) (env : Env) (method : GoString) (log : List Event) :
    Response × List Event :=
  if method = "GET".toList then
    render env "mov_to_mp4.html".toList
      ⟨"Convert MOV to MP4 | Stacking.app".toList, "Free online MOV to MP4 converter.".toList,
        env.year, none, "content_mp4".toList⟩ log
  else if method = "POST".toList then
    match handleUploadAndConvert U env "mp4".toList log with
    | (.error err, log) => (httpError err 400, log)
    | (.ok outName, log) =>
      render env "mov_to_mp4.html".toList
        ⟨"Convert MOV to MP4 | Stacking.app".toList, "Free online MOV to MP4 converter.".toList,
          env.year, some outName, "content_mp4".toList⟩ log
  else
    (httpError "Method not allowed".toList 405, log)

/-- The handler `movToGif` (lines 81-106). -/
def movToGif (U : UnicodeTables) (env : Env) (method : GoString) (log : List Event) :
    Response × List Event :=
  if method = "GET".toList then
    render env "mov_to_gif.html".toList
      ⟨"Convert MOV to GIF | Stacking.app".toList, "Free online MOV to GIF converter.".toList,
        env.year, none, "content_gif".toList⟩ log
  else if method = "POST".toList then
    match handleUploadAndConvert U env "gif".toList log with
    | (.error err, log) => (httpError err 400, log)
    | (.ok outName, log) =>
      render env "mov_to_gif.html".toList
        ⟨"Convert MOV to GIF | Stacking.app".toList, "Free online MOV to GIF converter.".toList,
          env.year, some outName, "content_gif".toList⟩ log
  else
    (httpError "Method not allowed".toList 405, log)

/-- An environment in which every step succeeds: the upload is declared as
`My Video!! 2024.MOV` and the random source delivers the bytes
`0b 1b 2b 3b 4b 5b`. -/
def Env.sample : Env where
  parseOk := true
  filename := some "My Video!! 2024.MOV".toList
  rnd i := 16 * i + 11
  createOk _ := true
  copyOk _ := true
  run _ _ := none
  year := 2024
  page _ data := .ok (data.outputFile.getD [])

/-- The sample environment with a request body over the size limit. -/
def Env.tooLarge : Env where
  parseOk := false
  filename := none
  rnd i := 16 * i + 11
  createOk _ := true
  copyOk _ := true
  run _ _ := none
  year := 2024
  page _ data := .ok (data.outputFile.getD [])

/-- The sample environment with an upload declared as `clip.mp4`. -/
def Env.wrongKind : Env where
  parseOk := true
  filename := some "clip.mp4".toList
  rnd i := 16 * i + 11
  createOk _ := true
  copyOk _ := true
  run _ _ := none
  year := 2024
  page _ data := .ok (data.outputFile.getD [])

/-! ## Lemmas on runes -/

theorem char_le_iff (a b : Char) : a ≤ b ↔ a.toNat ≤ b.toNat := Iff.rfl

theorem char_eq_iff (a b : Char) : a = b ↔ a.toNat = b.toNat := by
  constructor
  · intro h
    rw [h]
  · intro h
    apply Char.ext
    apply UInt32.ext
    exact h

theorem toNat_ofNat_small (n : Nat) (h : n < 0xD800) : (Char.ofNat n).toNat = n := by
  have hv : n.isValidChar := Or.inl h
  simp only [Char.ofNat, hv, dite_true]
  rfl

theorem sanitizeKeeps_iff (r : Char) :
    sanitizeKeeps r ↔ (97 ≤ r.toNat ∧ r.toNat ≤ 122) ∨ (48 ≤ r.toNat ∧ r.toNat ≤ 57)
      ∨ r.toNat = 45 ∨ r.toNat = 95 := by
  unfold sanitizeKeeps
  simp only [ge_iff_le, char_le_iff, char_eq_iff]
  rfl

/-! ## Lemmas on `sanitize` -/

theorem foldl_keep (s acc : GoString) :
    s.foldl (fun b r => if sanitizeKeeps r then b ++ [r] else b) acc
      = acc ++ s.filter (fun r => decide (sanitizeKeeps r)) := by
  induction s generalizing acc with
  | nil => simp
  | cons c cs ih =>
    simp only [List.foldl_cons, ih, List.filter_cons]
    by_cases h : sanitizeKeeps c <;> simp [h]

theorem replaceScan_space (s : GoString) :
    strings.replaceScan [' '] ['-'] 0 s = s.map (fun c => if c = ' ' then '-' else c) := by
  induction s with
  | nil => rfl
  | cons c cs ih =>
    by_cases h : c = ' '
    · subst h
      simp [strings.replaceScan, ih]
    · have h2 : ¬ ' ' = c := fun e => h e.symm
      simp [strings.replaceScan, ih, h, h2]

theorem replaceAll_space (s : GoString) :
    strings.ReplaceAll s " ".toList "-".toList = s.map (fun c => if c = ' ' then '-' else c) := by
  have h : strings.ReplaceAll s " ".toList "-".toList = strings.replaceScan [' '] ['-'] 0 s := rfl
  rw [h, replaceScan_space]

/-- The function `sanitize` in closed form: a map followed by a filter. -/
theorem sanitize_eq (U : UnicodeTables) (s : GoString) :
    sanitize U s
      = (s.map (fun r => if unicode.ToLower U r = ' ' then '-' else unicode.ToLower U r)).filter
          (fun r => decide (sanitizeKeeps r)) := by
  unfold sanitize
  simp only [foldl_keep, replaceAll_space, strings.ToLower, List.map_map, List.nil_append]
  rfl

theorem toLower_cases (U : UnicodeTables) (r : Char) :
    (65 ≤ r.toNat ∧ r.toNat ≤ 90 ∧ (unicode.ToLower U r) = Char.ofNat (r.toNat + 32))
    ∨ (r.toNat ≤ 127 ∧ ¬ (65 ≤ r.toNat ∧ r.toNat ≤ 90) ∧ unicode.ToLower U r = r)
    ∨ (r.toNat = 0x130 ∧ unicode.ToLower U r = 'i')
    ∨ (r.toNat = 0x212A ∧ unicode.ToLower U r = 'k')
    ∨ (128 ≤ r.toNat ∧ r.toNat ≠ 0x130 ∧ r.toNat ≠ 0x212A
        ∧ 128 ≤ (unicode.ToLower U r).toNat) := by
  unfold unicode.ToLower
  have hA : ('A' : Char).toNat = 65 := rfl
  have hZ : ('Z' : Char).toNat = 90 := rfl
  by_cases h1 : r.toNat ≤ 127
  · by_cases h2 : 'A' ≤ r ∧ r ≤ 'Z'
    · left
      have h3 := h2
      simp only [char_le_iff, hA, hZ] at h3
      simp only [h1, h2, if_true, and_self]
      exact ⟨h3.1, h3.2, trivial⟩
    · right; left
      have h3 := h2
      simp only [char_le_iff, hA, hZ] at h3
      simp only [h1, h2, if_true, if_false]
      exact ⟨trivial, h3, trivial⟩
  · by_cases h2 : r.toNat = 0x130
    · right; right; left
      simp [h1, h2]
    · by_cases h3 : r.toNat = 0x212A
      · right; right; right; left
        simp [h1, h3]
      · right; right; right; right
        simp only [h1, h2, h3, if_false]
        have := U.lower_high r (by omega)
        exact ⟨by omega, h2, h3, this⟩

/-- One rune through the three steps of `sanitize`. -/
theorem sanitize_rune (U : UnicodeTables) (r : Char) :
    [if unicode.ToLower U r = ' ' then '-' else unicode.ToLower U r].filter
        (fun c => decide (sanitizeKeeps c)) = sanitizeRune r := by
  have hs : (' ' : Char).toNat = 32 := rfl
  have hd : ('-' : Char).toNat = 45 := rfl
  have hA : ('A' : Char).toNat = 65 := rfl
  have hZ : ('Z' : Char).toNat = 90 := rfl
  have hi : ('i' : Char).toNat = 105 := rfl
  have hk : ('k' : Char).toNat = 107 := rfl
  unfold sanitizeRune specRune
  rcases toLower_cases U r with ⟨h1, h2, h3⟩ | ⟨h1, h2, h3⟩ | ⟨h1, h3⟩ | ⟨h1, h3⟩ | ⟨h1, h2, h4, h3⟩
  · have hn := toNat_ofNat_small (r.toNat + 32) (by omega)
    rw [h3]
    have e1 : ¬ (Char.ofNat (r.toNat + 32) = ' ') := by
      rw [char_eq_iff, hn, hs]; omega
    have e2 : sanitizeKeeps (Char.ofNat (r.toNat + 32)) := by
      rw [sanitizeKeeps_iff, hn]; omega
    have e3 : ¬ r.toNat = 0x130 := by omega
    have e4 : ¬ r.toNat = 0x212A := by omega
    have e5 : ¬ r = ' ' := by
      rw [char_eq_iff, hs]; omega
    have e6 : 'A' ≤ r ∧ r ≤ 'Z' := by
      simp only [char_le_iff, hA, hZ]; omega
    simp [e1, e2, e3, e4, e5, e6]
  · rw [h3]
    have e3 : ¬ r.toNat = 0x130 := by omega
    have e4 : ¬ r.toNat = 0x212A := by omega
    have e6 : ¬ ('A' ≤ r ∧ r ≤ 'Z') := by
      simp only [char_le_iff, hA, hZ]; omega
    by_cases e5 : r = ' '
    · subst e5
      simp [e3, e4]
      decide
    · by_cases e7 : sanitizeKeeps r <;> simp [e3, e4, e5, e6, e7]
  · rw [h3]
    simp [h1]
    decide
  · rw [h3]
    simp [h1]
    decide
  · have e1 : ¬ (unicode.ToLower U r = ' ') := by
      rw [char_eq_iff, hs]; omega
    have e2 : ¬ sanitizeKeeps (unicode.ToLower U r) := by
      rw [sanitizeKeeps_iff]; omega
    have e5 : ¬ r = ' ' := by
      rw [char_eq_iff, hs]; omega
    have e6 : ¬ ('A' ≤ r ∧ r ≤ 'Z') := by
      simp only [char_le_iff, hA, hZ]; omega
    have e7 : ¬ sanitizeKeeps r := by
      rw [sanitizeKeeps_iff]; omega
    simp [e1, e2, h2, h4, e5, e6, e7]

theorem sanitize_flatMap (U : UnicodeTables) (s : GoString) :
    sanitize U s = s.flatMap sanitizeRune := by
  rw [sanitize_eq]
  induction s with
  | nil => rfl
  | cons c cs ih =>
    rw [List.map_cons, List.flatMap_cons, ← ih, ← sanitize_rune U c, ← List.filter_append]
    rfl

/-! ## Lemmas on the unique base name and the paths -/

theorem hextable_keeps : ∀ c ∈ hex.hextable, sanitizeKeeps c := by
  decide

theorem hexDigit_mem : ∀ d, d < 16 → hex.hextable.getD d '0' ∈ hex.hextable := by
  decide

theorem encodeToString_length (src : List Nat) :
    (hex.EncodeToString src).length = 2 * src.length := by
  unfold hex.EncodeToString
  induction src with
  | nil => rfl
  | cons v vs ih =>
    rw [List.flatMap_cons, List.length_append, ih, List.length_cons]
    simp only [List.length_cons, List.length_nil]
    omega

theorem encodeToString_mem (src : List Nat) :
    ∀ c ∈ hex.EncodeToString src, c ∈ hex.hextable := by
  intro c hc
  unfold hex.EncodeToString at hc
  rw [List.mem_flatMap] at hc
  obtain ⟨v, _, hv⟩ := hc
  simp only [List.mem_cons, List.mem_singleton, List.not_mem_nil, or_false] at hv
  rcases hv with h | h
  · rw [h]
    exact hexDigit_mem _ (Nat.mod_lt _ (by omega))
  · rw [h]
    exact hexDigit_mem _ (Nat.mod_lt _ (by omega))

theorem randHex_length (rnd : Nat → Nat) (n : Nat) : (randHex rnd n).length = 2 * n := by
  unfold randHex
  simp only [encodeToString_length, List.length_map, List.length_range]

theorem randHex_mem (rnd : Nat → Nat) (n : Nat) : ∀ c ∈ randHex rnd n, c ∈ hex.hextable :=
  encodeToString_mem _

theorem sanitize_keeps (U : UnicodeTables) (s : GoString) :
    ∀ c ∈ sanitize U s, sanitizeKeeps c := by
  intro c hc
  rw [sanitize_eq, List.mem_filter] at hc
  exact of_decide_eq_true hc.2

theorem uploadName_keeps (U : UnicodeTables) (filename : GoString) :
    ∀ c ∈ uploadName U filename, sanitizeKeeps c := by
  intro c hc
  unfold uploadName at hc
  simp only at hc
  split at hc
  · revert c
    decide
  · exact sanitize_keeps U _ c hc

theorem uploadName_ne_nil (U : UnicodeTables) (filename : GoString) :
    uploadName U filename ≠ [] := by
  unfold uploadName
  simp only
  split
  · decide
  · assumption

theorem uniqueBase_keeps (rnd : Nat → Nat) (name : GoString)
    (h : ∀ c ∈ name, sanitizeKeeps c) : ∀ c ∈ uniqueBase rnd name, sanitizeKeeps c := by
  intro c hc
  unfold uniqueBase at hc
  rw [List.mem_append, List.mem_append] at hc
  rcases hc with (hc | hc) | hc
  · exact h c hc
  · revert c
    decide
  · exact hextable_keeps c (randHex_mem rnd 6 c hc)

theorem keeps_ne_slash (c : Char) (h : sanitizeKeeps c) : c ≠ '/' ∧ c ≠ '.' ∧ c ≠ '\\' := by
  rw [sanitizeKeeps_iff] at h
  have h1 : ('/' : Char).toNat = 47 := rfl
  have h2 : ('.' : Char).toNat = 46 := rfl
  have h3 : ('\\' : Char).toNat = 92 := rfl
  refine ⟨?_, ?_, ?_⟩ <;> rw [Ne, char_eq_iff] <;> omega

theorem splitSep_of_no_sep (x : GoString) (h : '/' ∉ x) : filepath.splitSep x = [x] := by
  induction x with
  | nil => rfl
  | cons c cs ih =>
    have hc : ¬ c = '/' := fun e => h (e ▸ List.mem_cons_self c cs)
    have hcs : '/' ∉ cs := fun m => h (List.mem_cons_of_mem c m)
    simp [filepath.splitSep, hc, ih hcs]

/-- Joining the upload directory with a file name that has no separator and
is not empty, `.` or `..` puts the file directly inside the directory. -/
theorem join_uploadDir (x : GoString) (h : '/' ∉ x) (h0 : x ≠ [])
    (h1 : x ≠ ['.']) (h2 : x ≠ ['.', '.']) :
    filepath.Join [uploadDir, x] = "uploads/".toList ++ x := by
  have hs := splitSep_of_no_sep x h
  have e : filepath.Join [uploadDir, x] = filepath.Clean ("uploads/".toList ++ x) := by
    have e0 : "/".toList.intercalate [uploadDir, x] = "uploads/".toList ++ x := by
      simp [List.intercalate, uploadDir]
    have e1 : filepath.Join [uploadDir, x] = filepath.Clean ("/".toList.intercalate [uploadDir, x]) :=
      rfl
    rw [e1, e0]
  rw [e]
  unfold filepath.Clean
  have e2 : filepath.splitSep ("uploads/".toList ++ x) = ["uploads".toList, x] := by
    simp [filepath.splitSep, hs]
  simp only [e2]
  simp [filepath.cleanStep, h0, h1, h2, List.intercalate]

theorem uniqueBase_file_ok (U : UnicodeTables) (rnd : Nat → Nat) (filename ext : GoString)
    (hext : '/' ∉ ext) :
    '/' ∉ uniqueBase rnd (uploadName U filename) ++ '.' :: ext
      ∧ uniqueBase rnd (uploadName U filename) ++ '.' :: ext ≠ []
      ∧ uniqueBase rnd (uploadName U filename) ++ '.' :: ext ≠ ['.']
      ∧ uniqueBase rnd (uploadName U filename) ++ '.' :: ext ≠ ['.', '.'] := by
  have hk := uniqueBase_keeps rnd _ (uploadName_keeps U filename)
  have hne : uniqueBase rnd (uploadName U filename) ≠ [] := by
    unfold uniqueBase
    simp
  refine ⟨?_, ?_, ?_, ?_⟩
  · intro hm
    rw [List.mem_append, List.mem_cons] at hm
    rcases hm with hm | hm | hm
    · exact (keeps_ne_slash _ (hk _ hm)).1 rfl
    · exact absurd hm (by decide)
    · exact hext hm
  · simp
  · cases hb : uniqueBase rnd (uploadName U filename) with
    | nil => exact absurd hb hne
    | cons c cs => simp
  · cases hb : uniqueBase rnd (uploadName U filename) with
    | nil => exact absurd hb hne
    | cons c cs =>
      intro e
      have hc : c = '.' := by
        simp only [List.cons_append, List.cons.injEq] at e
        exact e.1
      have hm : c ∈ uniqueBase rnd (uploadName U filename) := by
        rw [hb]
        exact List.mem_cons_self c cs
      exact (keeps_ne_slash _ (hk _ hm)).2.1 hc

/-- The path of the saved upload: `uploads/<base>.mov`. -/
theorem uploadPath_eq (U : UnicodeTables) (rnd : Nat → Nat) (filename : GoString) :
    filepath.Join [uploadDir, uniqueBase rnd (uploadName U filename) ++ ".mov".toList]
      = "uploads/".toList ++ uniqueBase rnd (uploadName U filename) ++ ".mov".toList := by
  obtain ⟨h1, h2, h3, h4⟩ := uniqueBase_file_ok U rnd filename "mov".toList (by decide)
  have e : ".mov".toList = '.' :: "mov".toList := rfl
  rw [e, join_uploadDir _ h1 h2 h3 h4, List.append_assoc]

/-- The path of the converted output for the two targets of the handlers. -/
theorem outputPath_eq (U : UnicodeTables) (rnd : Nat → Nat) (filename target : GoString)
    (ht : target = "mp4".toList ∨ target = "gif".toList) :
    filepath.Join [uploadDir, uniqueBase rnd (uploadName U filename) ++ ".".toList ++ target]
      = "uploads/".toList ++ uniqueBase rnd (uploadName U filename) ++ ".".toList ++ target := by
  have hext : '/' ∉ target := by
    rcases ht with h | h <;> rw [h] <;> decide
  obtain ⟨h1, h2, h3, h4⟩ := uniqueBase_file_ok U rnd filename target hext
  have e : uniqueBase rnd (uploadName U filename) ++ ".".toList ++ target
      = uniqueBase rnd (uploadName U filename) ++ '.' :: target := by
    rw [List.append_assoc]
    rfl
  rw [e, join_uploadDir _ h1 h2 h3 h4, List.append_assoc, List.append_assoc]
  rfl

/-- The function `saveUpload` with the path computed. -/
theorem saveUpload_eq (U : UnicodeTables) (env : Env) (filename : GoString) (log : List Event) :
    saveUpload U env filename log =
      if env.createOk ("uploads/".toList ++ uniqueBase env.rnd (uploadName U filename)
          ++ ".mov".toList) = false then
        (.error "could not create file on server".toList,
          log ++ [Event.create ("uploads/".toList ++ uniqueBase env.rnd (uploadName U filename)
            ++ ".mov".toList)])
      else if env.copyOk ("uploads/".toList ++ uniqueBase env.rnd (uploadName U filename)
          ++ ".mov".toList) = false then
        (.error "failed saving uploaded file".toList,
          log ++ [Event.create ("uploads/".toList ++ uniqueBase env.rnd (uploadName U filename)
            ++ ".mov".toList),
            Event.copy ("uploads/".toList ++ uniqueBase env.rnd (uploadName U filename)
            ++ ".mov".toList)])
      else
        (.ok ("uploads/".toList ++ uniqueBase env.rnd (uploadName U filename) ++ ".mov".toList,
            uniqueBase env.rnd (uploadName U filename)),
          log ++ [Event.create ("uploads/".toList ++ uniqueBase env.rnd (uploadName U filename)
            ++ ".mov".toList),
            Event.copy ("uploads/".toList ++ uniqueBase env.rnd (uploadName U filename)
            ++ ".mov".toList)]) := by
  unfold saveUpload
  simp only [uploadPath_eq, List.append_assoc, List.singleton_append]

/-! ## Lemmas on the extension check -/

theorem char_lt_iff (a b : Char) : a < b ↔ a.toNat < b.toNat := Iff.rfl

/-- Folding against an ASCII rune that is not a letter: only the rune itself. -/
theorem foldEq_dot (U : UnicodeTables) (c : Char) :
    strings.foldEq U c '.' = true ↔ c = '.' := by
  have hd : ('.' : Char).toNat = 46 := rfl
  have hA : ('A' : Char).toNat = 65 := rfl
  have hZ : ('Z' : Char).toNat = 90 := rfl
  have hK : ('K' : Char).toNat = 75 := rfl
  have hk : ('k' : Char).toNat = 107 := rfl
  have hS : ('S' : Char).toNat = 83 := rfl
  have hs : ('s' : Char).toNat = 115 := rfl
  unfold strings.foldEq
  by_cases h0 : '.' = c
  · simp only [h0, if_true]
  · have h0n := h0
    rw [char_eq_iff, hd] at h0n
    have hne : ¬ c = '.' := fun e => h0 e.symm
    simp only [h0, if_false, hne, iff_false, Bool.not_eq_true]
    by_cases h1 : '.' < c
    · have h1n := h1
      rw [char_lt_iff, hd] at h1n
      simp only [h1, if_true]
      split
      · simp only [decide_eq_false_iff_not, char_le_iff, hA, hZ, hd]
        omega
      · simp only [hd, Nat.reduceLT, if_true, decide_eq_false_iff_not, char_eq_iff, hK, hk, hS, hs]
        omega
    · have h1n := h1
      rw [char_lt_iff, hd] at h1n
      simp only [h1, if_false, hd, Nat.reduceLT, if_true, decide_eq_false_iff_not, char_le_iff,
        hA, hZ]
      omega

/-- Folding against a lower-case ASCII letter other than `k` and `s`: the
letter and its upper-case form. -/
theorem foldEq_letter (U : UnicodeTables) (c t : Char) (h97 : 97 ≤ t.toNat)
    (h122 : t.toNat ≤ 122) (hk : t.toNat ≠ 107) (hs : t.toNat ≠ 115) :
    strings.foldEq U c t = true ↔ c = t ∨ c.toNat + 32 = t.toNat := by
  have hA : ('A' : Char).toNat = 65 := rfl
  have hZ : ('Z' : Char).toNat = 90 := rfl
  have hK : ('K' : Char).toNat = 75 := rfl
  have hk' : ('k' : Char).toNat = 107 := rfl
  have hS : ('S' : Char).toNat = 83 := rfl
  have hs' : ('s' : Char).toNat = 115 := rfl
  unfold strings.foldEq
  by_cases h0 : t = c
  · simp only [h0, if_true, true_or]
  · have h0n := h0
    rw [char_eq_iff] at h0n
    have hne : ¬ c = t := fun e => h0 e.symm
    simp only [h0, if_false, hne, false_or]
    by_cases h1 : t < c
    · have h1n := h1
      rw [char_lt_iff] at h1n
      simp only [h1, if_true]
      split
      · simp only [decide_eq_true_iff, char_le_iff, hA, hZ]
        omega
      · have h128 : t.toNat < 128 := by omega
        simp only [h128, if_true, decide_eq_true_iff, char_eq_iff, hK, hk', hS, hs']
        omega
    · have h1n := h1
      rw [char_lt_iff] at h1n
      have h128 : t.toNat < 128 := by omega
      simp only [h1, if_false, h128, if_true, decide_eq_true_iff, char_le_iff, hA, hZ]
      omega

/-- The extension check: the strings that `EqualFold` accepts against `.mov`. -/
theorem equalFold_mov (U : UnicodeTables) (e : GoString) :
    strings.EqualFold U e ".mov".toList = true ↔
      ∃ a b c, e = ['.', a, b, c] ∧ (a = 'm' ∨ a = 'M') ∧ (b = 'o' ∨ b = 'O')
        ∧ (c = 'v' ∨ c = 'V') := by
  have hm := fun c => foldEq_letter U c 'm' (by decide) (by decide) (by decide) (by decide)
  have ho := fun c => foldEq_letter U c 'o' (by decide) (by decide) (by decide) (by decide)
  have hv := fun c => foldEq_letter U c 'v' (by decide) (by decide) (by decide) (by decide)
  have hM : ∀ c : Char, c.toNat + 32 = ('m' : Char).toNat ↔ c = 'M' := by
    intro c
    rw [char_eq_iff]
    have e1 : ('m' : Char).toNat = 109 := rfl
    have e2 : ('M' : Char).toNat = 77 := rfl
    omega
  have hO : ∀ c : Char, c.toNat + 32 = ('o' : Char).toNat ↔ c = 'O' := by
    intro c
    rw [char_eq_iff]
    have e1 : ('o' : Char).toNat = 111 := rfl
    have e2 : ('O' : Char).toNat = 79 := rfl
    omega
  have hV : ∀ c : Char, c.toNat + 32 = ('v' : Char).toNat ↔ c = 'V' := by
    intro c
    rw [char_eq_iff]
    have e1 : ('v' : Char).toNat = 118 := rfl
    have e2 : ('V' : Char).toNat = 86 := rfl
    omega
  have hlit : ".mov".toList = ['.', 'm', 'o', 'v'] := rfl
  rw [hlit]
  match e with
  | [] => simp [strings.EqualFold]
  | [_] => simp [strings.EqualFold]
  | [_, _] => simp [strings.EqualFold]
  | [_, _, _] => simp [strings.EqualFold]
  | [d, a, b, c] =>
    simp only [strings.EqualFold, Bool.and_eq_true, Bool.and_true, foldEq_dot, hm, ho, hv,
      hM, hO, hV]
    constructor
    · rintro ⟨h1, h2, h3, h4⟩
      exact ⟨a, b, c, by rw [h1], h2, h3, h4⟩
    · rintro ⟨a', b', c', he, h2, h3, h4⟩
      simp only [List.cons.injEq, and_true] at he
      obtain ⟨e1, e2, e3, e4⟩ := he
      subst e1 e2 e3 e4
      exact ⟨rfl, h2, h3, h4⟩
  | _ :: _ :: _ :: _ :: _ :: _ => simp [strings.EqualFold]

/-- The scan of `filepath.Ext`: either no dot is met before a separator or the
start, or the scan stops at the first dot met. -/
theorem extScan_spec (rev acc : GoString) :
    (filepath.extScan rev acc = [] ∧ ∀ r1 r2, rev = r1 ++ '.' :: r2 → '/' ∈ r1)
      ∨ (∃ r1 r2, rev = r1 ++ '.' :: r2 ∧ '.' ∉ r1 ∧ '/' ∉ r1
          ∧ filepath.extScan rev acc = '.' :: (r1.reverse ++ acc)) := by
  induction rev generalizing acc with
  | nil =>
    left
    refine ⟨rfl, ?_⟩
    intro r1 r2 h
    cases r1 <;> cases h
  | cons c cs ih =>
    by_cases h1 : c = '/'
    · left
      subst h1
      refine ⟨by simp [filepath.extScan], ?_⟩
      intro r1 r2 h
      cases r1 with
      | nil =>
        simp only [List.nil_append, List.cons.injEq] at h
        exact absurd h.1 (by decide)
      | cons x xs =>
        simp only [List.cons_append, List.cons.injEq] at h
        rw [← h.1]
        exact List.mem_cons_self _ _
    · by_cases h2 : c = '.'
      · right
        subst h2
        exact ⟨[], cs, rfl, by simp, by simp, by simp [filepath.extScan]⟩
      · have e : filepath.extScan (c :: cs) acc = filepath.extScan cs (c :: acc) := by
          simp [filepath.extScan, h1, h2]
        rcases ih (c :: acc) with ⟨h3, h4⟩ | ⟨r1, r2, h3, h4, h5, h6⟩
        · left
          refine ⟨by rw [e, h3], ?_⟩
          intro r1 r2 h
          cases r1 with
          | nil =>
            simp only [List.nil_append, List.cons.injEq] at h
            exact absurd h.1 h2
          | cons x xs =>
            simp only [List.cons_append, List.cons.injEq] at h
            exact List.mem_cons_of_mem _ (h4 xs r2 h.2)
        · right
          refine ⟨c :: r1, r2, by rw [h3]; rfl, ?_, ?_, ?_⟩
          · intro hm
            rcases List.mem_cons.mp hm with hm | hm
            · exact h2 hm.symm
            · exact h4 hm
          · intro hm
            rcases List.mem_cons.mp hm with hm | hm
            · exact h1 hm.symm
            · exact h5 hm
          · rw [e, h6]
            simp

/-- The extension returned by `filepath.Ext`: empty when the final path element
has no dot, and otherwise the suffix that starts at its last dot. -/
theorem ext_spec (path : GoString) :
    (filepath.Ext path = [] ∧ ∀ pre suf, path = pre ++ '.' :: suf → '/' ∈ suf)
      ∨ (∃ pre suf, path = pre ++ '.' :: suf ∧ '.' ∉ suf ∧ '/' ∉ suf
          ∧ filepath.Ext path = '.' :: suf) := by
  unfold filepath.Ext
  rcases extScan_spec path.reverse [] with ⟨h1, h2⟩ | ⟨r1, r2, h1, h2, h3, h4⟩
  · left
    refine ⟨h1, ?_⟩
    intro pre suf h
    have := h2 suf.reverse pre.reverse (by rw [h]; simp)
    exact List.mem_reverse.mp this
  · right
    refine ⟨r2.reverse, r1.reverse, ?_, ?_, ?_, ?_⟩
    · have := congrArg List.reverse h1
      rw [List.reverse_reverse] at this
      rw [this]
      simp
    · exact fun h => h2 (List.mem_reverse.mp h)
    · exact fun h => h3 (List.mem_reverse.mp h)
    · rw [h4, List.append_nil]

/-! ## Lemmas on the pipeline -/

theorem runFFmpeg_unsupported (env : Env) (inputPath outputPath target : GoString)
    (log : List Event) (h1 : target ≠ "mp4".toList) (h2 : target ≠ "gif".toList) :
    runFFmpeg env inputPath outputPath target log
      = (some "unsupported target format".toList, log) := by
  unfold runFFmpeg
  simp only [h1, h2, if_false]

/-- A supported target: `ffmpeg` is launched once, on an argument list that
has the input path in third place and the output path last. -/
theorem runFFmpeg_supported (env : Env) (inputPath outputPath target : GoString)
    (log : List Event) (ht : target = "mp4".toList ∨ target = "gif".toList) :
    ∃ args, args.get? 2 = some inputPath ∧ args.getLast? = some outputPath
      ∧ runFFmpeg env inputPath outputPath target log
        = (env.run "ffmpeg".toList args, log ++ [Event.exec "ffmpeg".toList args]) := by
  rcases ht with h | h
  · subst h
    exact ⟨["-y".toList, "-i".toList, inputPath, "-vcodec".toList, "libx264".toList,
      "-preset".toList, "veryfast".toList, "-crf".toList, "23".toList,
      "-acodec".toList, "aac".toList, "-b:a".toList, "128k".toList,
      "-movflags".toList, "+faststart".toList, outputPath], rfl, rfl, rfl⟩
  · subst h
    exact ⟨["-y".toList, "-i".toList, inputPath, "-vf".toList,
      "fps=10,scale=480:-1:flags=lanczos".toList, outputPath], rfl, rfl, rfl⟩

theorem handle_too_large (U : UnicodeTables) (env : Env) (target : GoString) (log : List Event)
    (hp : env.parseOk = false) :
    handleUploadAndConvert U env target log
      = (.error "file too large (limit ~200MB)".toList, log ++ [Event.parseForm]) := by
  unfold handleUploadAndConvert
  simp only [hp, if_true]

theorem handle_missing (U : UnicodeTables) (env : Env) (target : GoString) (log : List Event)
    (hp : env.parseOk = true) (hf : env.filename = none) :
    handleUploadAndConvert U env target log
      = (.error "missing file field 'video'".toList,
          log ++ [Event.parseForm, Event.formFile "video".toList]) := by
  unfold handleUploadAndConvert
  simp only [hp, hf, Bool.true_eq_false, if_false, List.append_assoc, List.singleton_append]

theorem handle_rejected (U : UnicodeTables) (env : Env) (target : GoString) (log : List Event)
    (f : GoString) (hp : env.parseOk = true) (hf : env.filename = some f)
    (hx : strings.EqualFold U (filepath.Ext f) ".mov".toList = false) :
    handleUploadAndConvert U env target log
      = (.error "only .mov files are allowed".toList,
          log ++ [Event.parseForm, Event.formFile "video".toList]) := by
  unfold handleUploadAndConvert
  simp only [hp, hf, hx, Bool.true_eq_false, if_false, if_true, List.append_assoc,
    List.singleton_append]

/-- Past the extension check, the pipeline is `saveUpload` followed, when the
upload was saved, by `runFFmpeg` on the saved path. -/
theorem handle_checked (U : UnicodeTables) (env : Env) (target : GoString) (log : List Event)
    (f : GoString) (hp : env.parseOk = true) (hf : env.filename = some f)
    (hx : strings.EqualFold U (filepath.Ext f) ".mov".toList = true) :
    handleUploadAndConvert U env target log
      = match saveUpload U env f (log ++ [Event.parseForm, Event.formFile "video".toList]) with
        | (.error err, log1) => (.error err, log1)
        | (.ok (inPath, baseName), log1) =>
          match runFFmpeg env inPath
              (filepath.Join [uploadDir, baseName ++ ".".toList ++ target]) target log1 with
          | (some err, log2) => (.error ("conversion failed: ".toList ++ err), log2)
          | (none, log2) => (.ok (baseName ++ ".".toList ++ target), log2) := by
  unfold handleUploadAndConvert
  simp only [hp, hf, hx, Bool.true_eq_false, if_false, List.append_assoc,
    List.singleton_append]

/-- The runs of `handleUploadAndConvert`: either the run fails without a
process launch, or the upload declared as `f` passed the check and was saved,
the target is one of the two supported ones, and `ffmpeg` was launched once on
the saved path. -/
theorem handle_outcome (U : UnicodeTables) (env : Env) (target : GoString) (log : List Event) :
    (∃ err events, handleUploadAndConvert U env target log = (.error err, log ++ events)
        ∧ events ≠ []
        ∧ (∀ e ∈ events, e.isExec = false)
        ∧ (∀ p, Event.create p ∈ events → ∃ f, env.filename = some f
            ∧ p = "uploads/".toList ++ uniqueBase env.rnd (uploadName U f) ++ ".mov".toList))
      ∨ (∃ f args, env.parseOk = true ∧ env.filename = some f
        ∧ strings.EqualFold U (filepath.Ext f) ".mov".toList = true
        ∧ saveUpload U env f (log ++ [Event.parseForm, Event.formFile "video".toList])
          = (.ok ("uploads/".toList ++ uniqueBase env.rnd (uploadName U f) ++ ".mov".toList,
                uniqueBase env.rnd (uploadName U f)),
              log ++ [Event.parseForm, Event.formFile "video".toList,
                Event.create ("uploads/".toList ++ uniqueBase env.rnd (uploadName U f)
                  ++ ".mov".toList),
                Event.copy ("uploads/".toList ++ uniqueBase env.rnd (uploadName U f)
                  ++ ".mov".toList)])
        ∧ (target = "mp4".toList ∨ target = "gif".toList)
        ∧ args.get? 2
          = some ("uploads/".toList ++ uniqueBase env.rnd (uploadName U f) ++ ".mov".toList)
        ∧ args.getLast?
          = some ("uploads/".toList ++ uniqueBase env.rnd (uploadName U f) ++ ".".toList
              ++ target)
        ∧ handleUploadAndConvert U env target log
          = ((match env.run "ffmpeg".toList args with
              | some err => .error ("conversion failed: ".toList ++ err)
              | none => .ok (uniqueBase env.rnd (uploadName U f) ++ ".".toList ++ target)),
              log ++ [Event.parseForm, Event.formFile "video".toList,
                Event.create ("uploads/".toList ++ uniqueBase env.rnd (uploadName U f)
                  ++ ".mov".toList),
                Event.copy ("uploads/".toList ++ uniqueBase env.rnd (uploadName U f)
                  ++ ".mov".toList),
                Event.exec "ffmpeg".toList args])) := by
  by_cases hp : env.parseOk = false
  · left
    refine ⟨_, [Event.parseForm], handle_too_large U env target log hp,
      List.cons_ne_nil _ _, ?_, ?_⟩
    · intro e he
      rw [List.mem_singleton] at he
      rw [he]
      rfl
    · intro p hm
      rw [List.mem_singleton] at hm
      cases hm
  have hp1 : env.parseOk = true := by
    cases h : env.parseOk
    · exact absurd h hp
    · rfl
  cases hf : env.filename with
  | none =>
    left
    refine ⟨_, _, handle_missing U env target log hp1 hf,
      List.cons_ne_nil _ _, ?_, ?_⟩
    · intro e he
      simp only [List.mem_cons, List.mem_singleton, List.not_mem_nil, or_false] at he
      rcases he with he | he <;> rw [he] <;> rfl
    · intro p hm
      simp only [List.mem_cons, List.mem_singleton, List.not_mem_nil, or_false] at hm
      rcases hm with hm | hm <;> cases hm
  | some f =>
    by_cases hx : strings.EqualFold U (filepath.Ext f) ".mov".toList = false
    · left
      refine ⟨_, _, handle_rejected U env target log f hp1 hf hx,
        List.cons_ne_nil _ _, ?_, ?_⟩
      · intro e he
        simp only [List.mem_cons, List.mem_singleton, List.not_mem_nil, or_false] at he
        rcases he with he | he <;> rw [he] <;> rfl
      · intro p hm
        simp only [List.mem_cons, List.mem_singleton, List.not_mem_nil, or_false] at hm
        rcases hm with hm | hm <;> cases hm
    have hx1 : strings.EqualFold U (filepath.Ext f) ".mov".toList = true := by
      cases h : strings.EqualFold U (filepath.Ext f) ".mov".toList
      · exact absurd h hx
      · rfl
    have hh := handle_checked U env target log f hp1 hf hx1
    have hs := saveUpload_eq U env f (log ++ [Event.parseForm, Event.formFile "video".toList])
    by_cases hc : env.createOk ("uploads/".toList ++ uniqueBase env.rnd (uploadName U f)
        ++ ".mov".toList) = false
    · left
      rw [if_pos hc] at hs
      rw [hs] at hh
      refine ⟨"could not create file on server".toList, [Event.parseForm, Event.formFile "video".toList, Event.create
        ("uploads/".toList ++ uniqueBase env.rnd (uploadName U f) ++ ".mov".toList)], ?_,
        List.cons_ne_nil _ _, ?_, ?_⟩
      · rw [hh]
        simp only [List.append_assoc, List.cons_append, List.nil_append]
      · intro e he
        simp only [List.mem_cons, List.mem_singleton, List.not_mem_nil, or_false] at he
        rcases he with he | he | he <;> rw [he] <;> rfl
      · intro p hm
        simp only [List.mem_cons, List.mem_singleton, List.not_mem_nil, or_false] at hm
        rcases hm with hm | hm | hm
        · cases hm
        · cases hm
        · exact ⟨f, rfl, Event.create.inj hm⟩
    rw [if_neg hc] at hs
    by_cases hk : env.copyOk ("uploads/".toList ++ uniqueBase env.rnd (uploadName U f)
        ++ ".mov".toList) = false
    · left
      rw [if_pos hk] at hs
      rw [hs] at hh
      refine ⟨"failed saving uploaded file".toList, [Event.parseForm, Event.formFile "video".toList, Event.create
          ("uploads/".toList ++ uniqueBase env.rnd (uploadName U f) ++ ".mov".toList),
        Event.copy
          ("uploads/".toList ++ uniqueBase env.rnd (uploadName U f) ++ ".mov".toList)], ?_,
        List.cons_ne_nil _ _, ?_, ?_⟩
      · rw [hh]
        simp only [List.append_assoc, List.cons_append, List.nil_append]
      · intro e he
        simp only [List.mem_cons, List.mem_singleton, List.not_mem_nil, or_false] at he
        rcases he with he | he | he | he <;> rw [he] <;> rfl
      · intro p hm
        simp only [List.mem_cons, List.mem_singleton, List.not_mem_nil, or_false] at hm
        rcases hm with hm | hm | hm | hm
        · cases hm
        · cases hm
        · exact ⟨f, rfl, Event.create.inj hm⟩
        · cases hm
    rw [if_neg hk] at hs
    have hs2 : saveUpload U env f (log ++ [Event.parseForm, Event.formFile "video".toList])
        = (.ok ("uploads/".toList ++ uniqueBase env.rnd (uploadName U f) ++ ".mov".toList,
              uniqueBase env.rnd (uploadName U f)),
            log ++ [Event.parseForm, Event.formFile "video".toList,
              Event.create ("uploads/".toList ++ uniqueBase env.rnd (uploadName U f)
                ++ ".mov".toList),
              Event.copy ("uploads/".toList ++ uniqueBase env.rnd (uploadName U f)
                ++ ".mov".toList)]) := by
      rw [hs]
      simp only [List.append_assoc, List.cons_append, List.nil_append]
    rw [hs2] at hh
    dsimp only at hh
    by_cases ht : target = "mp4".toList ∨ target = "gif".toList
    · right
      rw [outputPath_eq U env.rnd f target ht] at hh
      obtain ⟨args, ha1, ha2, ha3⟩ := runFFmpeg_supported env
        ("uploads/".toList ++ uniqueBase env.rnd (uploadName U f) ++ ".mov".toList)
        ("uploads/".toList ++ uniqueBase env.rnd (uploadName U f) ++ ".".toList ++ target)
        target
        (log ++ [Event.parseForm, Event.formFile "video".toList,
              Event.create ("uploads/".toList ++ uniqueBase env.rnd (uploadName U f)
                ++ ".mov".toList),
              Event.copy ("uploads/".toList ++ uniqueBase env.rnd (uploadName U f)
                ++ ".mov".toList)]) ht
      rw [ha3] at hh
      refine ⟨f, args, hp1, rfl, hx1, hs2, ht, ha1, ha2, ?_⟩
      rw [hh]
      cases env.run "ffmpeg".toList args <;>
        simp only [List.append_assoc, List.cons_append, List.nil_append]
    · left
      have h1 : target ≠ "mp4".toList := fun e => ht (Or.inl e)
      have h2 : target ≠ "gif".toList := fun e => ht (Or.inr e)
      rw [runFFmpeg_unsupported env _ _ target _ h1 h2] at hh
      refine ⟨_, [Event.parseForm, Event.formFile "video".toList, Event.create
          ("uploads/".toList ++ uniqueBase env.rnd (uploadName U f) ++ ".mov".toList),
        Event.copy
          ("uploads/".toList ++ uniqueBase env.rnd (uploadName U f) ++ ".mov".toList)], hh,
        List.cons_ne_nil _ _, ?_, ?_⟩
      · intro e he
        simp only [List.mem_cons, List.mem_singleton, List.not_mem_nil, or_false] at he
        rcases he with he | he | he | he <;> rw [he] <;> rfl
      · intro p hm
        simp only [List.mem_cons, List.mem_singleton, List.not_mem_nil, or_false] at hm
        rcases hm with hm | hm | hm | hm
        · cases hm
        · cases hm
        · exact ⟨f, rfl, Event.create.inj hm⟩
        · cases hm

/-- Every run of the pipeline extends the event log. -/
theorem handle_log_grows (U : UnicodeTables) (env : Env) (target : GoString) (log : List Event) :
    (handleUploadAndConvert U env target log).2 ≠ log := by
  have key : ∀ events : List Event, events ≠ [] → log ++ events ≠ log := by
    intro events hne h
    have := congrArg List.length h
    rw [List.length_append] at this
    cases events with
    | nil => exact hne rfl
    | cons e es =>
      rw [List.length_cons] at this
      omega
  rcases handle_outcome U env target log with
    ⟨err, events, h1, h2, _, _⟩ | ⟨f, args, _, _, _, _, _, _, _, h8⟩
  · rw [h1]
    exact key events h2
  · rw [h8]
    exact key _ (List.cons_ne_nil _ _)

theorem movToMp4_other (U : UnicodeTables) (env : Env) (method : GoString) (log : List Event)
    (h1 : method ≠ "GET".toList) (h2 : method ≠ "POST".toList) :
    movToMp4 U env method log = (httpError "Method not allowed".toList 405, log) := by
  unfold movToMp4
  simp only [h1, h2, if_false]

theorem movToGif_other (U : UnicodeTables) (env : Env) (method : GoString) (log : List Event)
    (h1 : method ≠ "GET".toList) (h2 : method ≠ "POST".toList) :
    movToGif U env method log = (httpError "Method not allowed".toList 405, log) := by
  unfold movToGif
  simp only [h1, h2, if_false]

theorem movToMp4_post_error (U : UnicodeTables) (env : Env) (log : List Event) (err : GoError)
    (h : (handleUploadAndConvert U env "mp4".toList log).1 = .error err) :
    movToMp4 U env "POST".toList log
      = (httpError err 400, (handleUploadAndConvert U env "mp4".toList log).2) := by
  unfold movToMp4
  have hne : ¬ "POST".toList = "GET".toList := by decide
  rw [if_neg hne, if_pos rfl]
  rcases hr : handleUploadAndConvert U env "mp4".toList log with ⟨r, l⟩
  rw [hr] at h
  dsimp only at h
  subst h
  rfl

theorem movToGif_post_error (U : UnicodeTables) (env : Env) (log : List Event) (err : GoError)
    (h : (handleUploadAndConvert U env "gif".toList log).1 = .error err) :
    movToGif U env "POST".toList log
      = (httpError err 400, (handleUploadAndConvert U env "gif".toList log).2) := by
  unfold movToGif
  have hne : ¬ "POST".toList = "GET".toList := by decide
  rw [if_neg hne, if_pos rfl]
  rcases hr : handleUploadAndConvert U env "gif".toList log with ⟨r, l⟩
  rw [hr] at h
  dsimp only at h
  subst h
  rfl

/-! ## The claims -/

/-- C1: for every input string `s` (any sequence of runes, the empty one
included) and every Unicode case table, each rune of `sanitize s` is one of
`a-z`, `0-9`, `-` or `_`. -/
theorem C1_sanitize_alphabet (U : UnicodeTables) (s : GoString) :
    ∀ c ∈ sanitize U s,
      ('a' ≤ c ∧ c ≤ 'z') ∨ ('0' ≤ c ∧ c ≤ '9') ∨ c = '-' ∨ c = '_' := by
  intro c hc
  rw [sanitize_eq, List.mem_filter] at hc
  exact of_decide_eq_true hc.2

/-- C1 at the input `My Video!! 2024`, whose sanitized form contains `m`. -/
theorem C1_sanitize_alphabet_witness :
    'm' ∈ sanitize UnicodeTables.latin1 "My Video!! 2024".toList
      ∧ (('a' ≤ 'm' ∧ 'm' ≤ 'z') ∨ ('0' ≤ 'm' ∧ 'm' ≤ '9') ∨ 'm' = '-' ∨ 'm' = '_') :=
  ⟨by decide,
    C1_sanitize_alphabet UnicodeTables.latin1 "My Video!! 2024".toList 'm' (by decide)⟩

/-- C2, at the name `clip` with the random bytes `0b 1b 2b 3b 4b 5b`: the base
name is `clip-0b1b2b3b4b5b`, whose length is not the length of `clip` plus
7. -/
theorem C2_six_bytes_twelve_digits :
    uniqueBase (fun i => 16 * i + 11) "clip".toList = "clip-0b1b2b3b4b5b".toList
      ∧ (uniqueBase (fun i => 16 * i + 11) "clip".toList).length ≠ "clip".toList.length + 7 := by
  decide

/-- C2, amended: the unique base name built in `saveUpload` for a name is
the name, a dash and the hex encoding of 6 random bytes, that is exactly 12
hexadecimal characters; for every name and every outcome of the random source
its length is the length of the name plus 13 (counted in runes here; the added
part is ASCII, so the byte lengths differ by 13 as well). -/
theorem C2_unique_base_length (rnd : Nat → Nat) (name : GoString) :
    uniqueBase rnd name = name ++ '-' :: randHex rnd 6
      ∧ (randHex rnd 6).length = 12
      ∧ (∀ c ∈ randHex rnd 6, c ∈ "0123456789abcdef".toList)
      ∧ (uniqueBase rnd name).length = name.length + 13 := by
  have hl := randHex_length rnd 6
  refine ⟨?_, hl, randHex_mem rnd 6, ?_⟩
  · unfold uniqueBase
    rw [List.append_assoc]
    rfl
  · unfold uniqueBase
    rw [List.length_append, List.length_append, hl]
    rfl

/-- C3, at U+212A: the code writes `k` for the Kelvin sign, for which the
rune-by-rune description of the claim writes nothing. -/
theorem C3_kelvin_sign :
    (∀ U : UnicodeTables, sanitize U [Char.ofNat 0x212A] = ['k'])
      ∧ sanitizeSpec [Char.ofNat 0x212A] = [] :=
  ⟨fun U => by rw [sanitize_flatMap]; decide, by decide⟩

/-- C3, amended: for every input string `s`, `sanitize s` is obtained by
going through the runes of `s` in order and writing `-` for a space, the
lower-case letter for `A-Z`, the rune itself for `a-z`, `0-9`, `-`, `_`,
`i` for U+0130, `k` for U+212A, and nothing for any other rune; on ASCII-only
input this is the description of the specification, and
`sanitize "My Video!! 2024" = "my-video-2024"`. -/
theorem C3_sanitize_rune_by_rune (U : UnicodeTables) (s : GoString) :
    sanitize U s = s.flatMap sanitizeRune
      ∧ ((∀ r ∈ s, r.toNat ≤ 127) → sanitize U s = sanitizeSpec s)
      ∧ sanitize U "My Video!! 2024".toList = "my-video-2024".toList := by
  refine ⟨sanitize_flatMap U s, ?_, by rw [sanitize_flatMap]; decide⟩
  intro h
  rw [sanitize_flatMap]
  unfold sanitizeSpec
  induction s with
  | nil => rfl
  | cons c cs ih =>
    have hc := h c (List.mem_cons_self c cs)
    have e1 : ¬ c.toNat = 0x130 := by omega
    have e2 : ¬ c.toNat = 0x212A := by omega
    rw [List.flatMap_cons, List.flatMap_cons, ih (fun r hr => h r (List.mem_cons_of_mem c hr))]
    simp [sanitizeRune, e1, e2]

/-- C4: for every declared filename `f` of a request that carries the form
file, the extension check passes if and only if `filepath.Ext f` is `.mov` up
to the case of its three letters; when it does not pass, the pipeline stops
with the error `only .mov files are allowed` before anything is created or
launched, and when it passes the pipeline does not return that error.  The
extension is empty when the final path element has no dot and is the suffix
from its last dot otherwise.  `clip.MOV` passes and `clip.mp4` is rejected. -/
theorem C4_extension_check (U : UnicodeTables) (env : Env) (f target : GoString)
    (log : List Event) (hp : env.parseOk = true) (hf : env.filename = some f) :
    (strings.EqualFold U (filepath.Ext f) ".mov".toList = true ↔
        ∃ a b c, filepath.Ext f = ['.', a, b, c] ∧ (a = 'm' ∨ a = 'M') ∧ (b = 'o' ∨ b = 'O')
          ∧ (c = 'v' ∨ c = 'V'))
      ∧ (strings.EqualFold U (filepath.Ext f) ".mov".toList = false →
          handleUploadAndConvert U env target log
            = (.error "only .mov files are allowed".toList,
                log ++ [Event.parseForm, Event.formFile "video".toList]))
      ∧ (strings.EqualFold U (filepath.Ext f) ".mov".toList = true →
          (handleUploadAndConvert U env target log).1
            ≠ .error "only .mov files are allowed".toList)
      ∧ ((filepath.Ext f = [] ∧ ∀ pre suf, f = pre ++ '.' :: suf → '/' ∈ suf)
          ∨ (∃ pre suf, f = pre ++ '.' :: suf ∧ '.' ∉ suf ∧ '/' ∉ suf
              ∧ filepath.Ext f = '.' :: suf))
      ∧ strings.EqualFold U (filepath.Ext "clip.MOV".toList) ".mov".toList = true
      ∧ strings.EqualFold U (filepath.Ext "clip.mp4".toList) ".mov".toList = false := by
  refine ⟨equalFold_mov U _, handle_rejected U env target log f hp hf, ?_, ext_spec f, ?_, ?_⟩
  · intro hx
    rw [handle_checked U env target log f hp hf hx, saveUpload_eq]
    by_cases hc : env.createOk ("uploads/".toList ++ uniqueBase env.rnd (uploadName U f)
        ++ ".mov".toList) = false
    · rw [if_pos hc]
      exact fun h => absurd (Except.error.inj h) (by decide)
    rw [if_neg hc]
    by_cases hk : env.copyOk ("uploads/".toList ++ uniqueBase env.rnd (uploadName U f)
        ++ ".mov".toList) = false
    · rw [if_pos hk]
      exact fun h => absurd (Except.error.inj h) (by decide)
    rw [if_neg hk]
    dsimp only
    rcases runFFmpeg env _ _ target _ with ⟨_ | err, log2⟩
    · exact fun h => Except.noConfusion h
    · intro h
      have h3 : some 'c' = some 'o' := congrArg List.head? (Except.error.inj h)
      exact absurd h3 (by decide)
  · rw [equalFold_mov]
    exact ⟨'M', 'O', 'V', by decide, Or.inr rfl, Or.inr rfl, Or.inr rfl⟩
  · cases h : strings.EqualFold U (filepath.Ext "clip.mp4".toList) ".mov".toList
    · rfl
    · rw [equalFold_mov] at h
      obtain ⟨a, b, c, h1, _, hb, _⟩ := h
      have e : filepath.Ext "clip.mp4".toList = ['.', 'm', 'p', '4'] := by decide
      rw [e] at h1
      simp only [List.cons.injEq, and_true] at h1
      obtain ⟨_, _, h3, _⟩ := h1
      subst h3
      exact absurd hb (by decide)

/-- C4 at the sample environments: the upload declared as
`My Video!! 2024.MOV` passes the check, the one declared as `clip.mp4` is
rejected. -/
theorem C4_extension_check_witness :
    strings.EqualFold UnicodeTables.latin1 (filepath.Ext "My Video!! 2024.MOV".toList)
        ".mov".toList = true
      ∧ handleUploadAndConvert UnicodeTables.latin1 Env.wrongKind "mp4".toList []
        = (.error "only .mov files are allowed".toList,
            [Event.parseForm, Event.formFile "video".toList]) :=
  ⟨by decide,
    (C4_extension_check UnicodeTables.latin1 Env.wrongKind "clip.mp4".toList "mp4".toList []
      rfl rfl).2.1 (by decide)⟩

/-- C5: for every input path, output path and target other than `mp4` and
`gif`, `runFFmpeg` returns the error `unsupported target format` and leaves
the event log as it was: no process is started. -/
theorem C5_unsupported_target (env : Env) (inputPath outputPath target : GoString)
    (log : List Event) (h1 : target ≠ "mp4".toList) (h2 : target ≠ "gif".toList) :
    runFFmpeg env inputPath outputPath target log
      = (some "unsupported target format".toList, log) := by
  unfold runFFmpeg
  simp only [h1, h2, if_false]

/-- C5 at the target `webm`. -/
theorem C5_unsupported_target_witness :
    runFFmpeg Env.sample "uploads/a-00.mov".toList "uploads/a-00.webm".toList "webm".toList []
      = (some "unsupported target format".toList, []) :=
  C5_unsupported_target Env.sample _ _ "webm".toList [] (by decide) (by decide)

/-- C6: for every input path and output path, `runFFmpeg` launches `ffmpeg`
once, with exactly the sixteen arguments of the `mp4` case for target `mp4`
and exactly the six arguments of the `gif` case for target `gif`, and returns
what the run of that command returns; both lists begin with `-y -i <input>`
and end with the output path. -/
theorem C6_ffmpeg_arguments (env : Env) (inputPath outputPath : GoString) (log : List Event) :
    runFFmpeg env inputPath outputPath "mp4".toList log
        = (env.run "ffmpeg".toList
            ["-y".toList, "-i".toList, inputPath, "-vcodec".toList, "libx264".toList,
              "-preset".toList, "veryfast".toList, "-crf".toList, "23".toList,
              "-acodec".toList, "aac".toList, "-b:a".toList, "128k".toList,
              "-movflags".toList, "+faststart".toList, outputPath],
          log ++ [Event.exec "ffmpeg".toList
            ["-y".toList, "-i".toList, inputPath, "-vcodec".toList, "libx264".toList,
              "-preset".toList, "veryfast".toList, "-crf".toList, "23".toList,
              "-acodec".toList, "aac".toList, "-b:a".toList, "128k".toList,
              "-movflags".toList, "+faststart".toList, outputPath]])
      ∧ runFFmpeg env inputPath outputPath "gif".toList log
        = (env.run "ffmpeg".toList
            ["-y".toList, "-i".toList, inputPath, "-vf".toList,
              "fps=10,scale=480:-1:flags=lanczos".toList, outputPath],
          log ++ [Event.exec "ffmpeg".toList
            ["-y".toList, "-i".toList, inputPath, "-vf".toList,
              "fps=10,scale=480:-1:flags=lanczos".toList, outputPath]]) :=
  ⟨rfl, rfl⟩

/-- C7: for every declared filename, every outcome of the random source and
each of the targets `mp4` and `gif`, with `n` the unique base name built from
the filename: `n` is not empty, consists of `a-z`, `0-9`, `-` and `_` only,
hence has no `/`, no backslash and no dot; the upload path is `uploads/n.mov`
and the output path is `uploads/n.<target>`; and in every run of
`handleUploadAndConvert` on that upload these are the only path handed to
`os.Create` and the input and output paths handed to `ffmpeg`. -/
theorem C7_flat_paths (U : UnicodeTables) (env : Env) (filename target : GoString)
    (log : List Event) (hf : env.filename = some filename)
    (ht : target = "mp4".toList ∨ target = "gif".toList) :
    ∃ n, n = uniqueBase env.rnd (uploadName U filename)
      ∧ n ≠ []
      ∧ (∀ c ∈ n, ('a' ≤ c ∧ c ≤ 'z') ∨ ('0' ≤ c ∧ c ≤ '9') ∨ c = '-' ∨ c = '_')
      ∧ '/' ∉ n ∧ '\\' ∉ n ∧ '.' ∉ n
      ∧ filepath.Join [uploadDir, n ++ ".mov".toList] = "uploads/".toList ++ n ++ ".mov".toList
      ∧ filepath.Join [uploadDir, n ++ ".".toList ++ target]
        = "uploads/".toList ++ n ++ ".".toList ++ target
      ∧ ∃ events, (handleUploadAndConvert U env target log).2 = log ++ events
        ∧ (∀ p, Event.create p ∈ events → p = "uploads/".toList ++ n ++ ".mov".toList)
        ∧ (∀ name args, Event.exec name args ∈ events →
            args.get? 2 = some ("uploads/".toList ++ n ++ ".mov".toList)
            ∧ args.getLast? = some ("uploads/".toList ++ n ++ ".".toList ++ target)) := by
  have hk := uniqueBase_keeps env.rnd _ (uploadName_keeps U filename)
  refine ⟨_, rfl, ?_, hk, ?_, ?_, ?_, uploadPath_eq U env.rnd filename,
    outputPath_eq U env.rnd filename target ht, ?_⟩
  · unfold uniqueBase
    simp
  · exact fun hm => (keeps_ne_slash _ (hk _ hm)).1 rfl
  · exact fun hm => (keeps_ne_slash _ (hk _ hm)).2.2 rfl
  · exact fun hm => (keeps_ne_slash _ (hk _ hm)).2.1 rfl
  · rcases handle_outcome U env target log with
      ⟨err, events, h1, _, h3, h4⟩ | ⟨f, args, _, h2, _, _, _, h6, h7, h8⟩
    · refine ⟨events, by rw [h1], ?_, ?_⟩
      · intro p hm
        obtain ⟨f, e1, e2⟩ := h4 p hm
        rw [hf] at e1
        cases e1
        exact e2
      · intro name args hm
        exact absurd (h3 _ hm) (by simp [Event.isExec])
    · rw [hf] at h2
      cases h2
      refine ⟨_, by rw [h8], ?_, ?_⟩
      · intro p hm
        simp only [List.mem_cons, List.mem_singleton, List.not_mem_nil, or_false] at hm
        rcases hm with hm | hm | hm | hm | hm
        · cases hm
        · cases hm
        · exact Event.create.inj hm
        · cases hm
        · cases hm
      · intro name args' hm
        simp only [List.mem_cons, List.mem_singleton, List.not_mem_nil, or_false] at hm
        rcases hm with hm | hm | hm | hm | hm
        · cases hm
        · cases hm
        · cases hm
        · cases hm
        · obtain ⟨_, e2⟩ := Event.exec.inj hm
          rw [e2]
          exact ⟨h6, h7⟩

/-- C7 at the sample environment and the target `gif`: the name is
`my-video-2024-0b1b2b3b4b5b`. -/
theorem C7_flat_paths_witness :
    ∃ n, n = "my-video-2024-0b1b2b3b4b5b".toList
      ∧ n ≠ []
      ∧ (∀ c ∈ n, ('a' ≤ c ∧ c ≤ 'z') ∨ ('0' ≤ c ∧ c ≤ '9') ∨ c = '-' ∨ c = '_')
      ∧ '/' ∉ n ∧ '\\' ∉ n ∧ '.' ∉ n
      ∧ filepath.Join [uploadDir, n ++ ".mov".toList] = "uploads/".toList ++ n ++ ".mov".toList
      ∧ filepath.Join [uploadDir, n ++ ".".toList ++ "gif".toList]
        = "uploads/".toList ++ n ++ ".".toList ++ "gif".toList
      ∧ ∃ events, (handleUploadAndConvert UnicodeTables.latin1 Env.sample "gif".toList []).2
          = [] ++ events
        ∧ (∀ p, Event.create p ∈ events → p = "uploads/".toList ++ n ++ ".mov".toList)
        ∧ (∀ name args, Event.exec name args ∈ events →
            args.get? 2 = some ("uploads/".toList ++ n ++ ".mov".toList)
            ∧ args.getLast? = some ("uploads/".toList ++ n ++ ".".toList ++ "gif".toList)) := by
  have h := C7_flat_paths UnicodeTables.latin1 Env.sample "My Video!! 2024.MOV".toList
    "gif".toList [] rfl (Or.inr rfl)
  have e : uniqueBase Env.sample.rnd (uploadName UnicodeTables.latin1
      "My Video!! 2024.MOV".toList) = "my-video-2024-0b1b2b3b4b5b".toList := by decide
  rw [e] at h
  exact h

/-- C8: for both tool handlers and every request: when the method is neither
`GET` nor `POST` the response has status 405 and the event log is left as it
was, whereas every run of the upload/convert pipeline extends the log, so the
pipeline is not run; and when the method is `POST` and the pipeline returns an
error, the response has status 400 and its body is the message of that error
followed by a newline. -/
theorem C8_handler_status (U : UnicodeTables) (env : Env) (method : GoString)
    (log : List Event) :
    (method ≠ "GET".toList → method ≠ "POST".toList →
        (movToMp4 U env method log).1.status = 405 ∧ (movToMp4 U env method log).2 = log
        ∧ (movToGif U env method log).1.status = 405 ∧ (movToGif U env method log).2 = log)
      ∧ (∀ target, (handleUploadAndConvert U env target log).2 ≠ log)
      ∧ (method = "POST".toList → ∀ err,
          (handleUploadAndConvert U env "mp4".toList log).1 = .error err →
          (movToMp4 U env method log).1 = ⟨400, err ++ "\n".toList⟩)
      ∧ (method = "POST".toList → ∀ err,
          (handleUploadAndConvert U env "gif".toList log).1 = .error err →
          (movToGif U env method log).1 = ⟨400, err ++ "\n".toList⟩) := by
  refine ⟨?_, fun target => handle_log_grows U env target log, ?_, ?_⟩
  · intro h1 h2
    rw [movToMp4_other U env method log h1 h2, movToGif_other U env method log h1 h2]
    exact ⟨rfl, rfl, rfl, rfl⟩
  · intro hm err h
    subst hm
    rw [movToMp4_post_error U env log err h]
    rfl
  · intro hm err h
    subst hm
    rw [movToGif_post_error U env log err h]
    rfl

/-- C8 at a `DELETE` request and at a `POST` whose body is over the limit. -/
theorem C8_handler_status_witness :
    ((movToMp4 UnicodeTables.latin1 Env.sample "DELETE".toList []).1.status = 405
        ∧ (movToMp4 UnicodeTables.latin1 Env.sample "DELETE".toList []).2 = []
        ∧ (movToGif UnicodeTables.latin1 Env.sample "DELETE".toList []).1.status = 405
        ∧ (movToGif UnicodeTables.latin1 Env.sample "DELETE".toList []).2 = [])
      ∧ (movToMp4 UnicodeTables.latin1 Env.tooLarge "POST".toList []).1
        = ⟨400, "file too large (limit ~200MB)\n".toList⟩ :=
  ⟨(C8_handler_status UnicodeTables.latin1 Env.sample "DELETE".toList []).1
      (by decide) (by decide),
    (C8_handler_status UnicodeTables.latin1 Env.tooLarge "POST".toList []).2.2.1 rfl
      "file too large (limit ~200MB)".toList (by decide)⟩

/-- C9: in every run of `saveUpload` the file is created at
`uploads/<name>-<suffix>.mov`, where `<suffix>` is `randHex(6)` and `<name>`
is the fixed token `video` when the stem of the declared filename (the
filename without its extension) sanitizes to the empty string, and the
sanitized stem otherwise; a successful run returns `<name>-<suffix>` as the
base name.  The stems of `!!!.mov` and `.mov` sanitize to the empty string. -/
theorem C9_fallback_name (U : UnicodeTables) (env : Env) (filename : GoString)
    (log : List Event) :
    (∃ rest, (saveUpload U env filename log).2
        = log ++ Event.create ("uploads/".toList
            ++ (if sanitize U (strings.TrimSuffix filename (filepath.Ext filename)) = []
                then "video".toList
                else sanitize U (strings.TrimSuffix filename (filepath.Ext filename)))
            ++ "-".toList ++ randHex env.rnd 6 ++ ".mov".toList) :: rest)
      ∧ (∀ full base, (saveUpload U env filename log).1 = .ok (full, base) →
          base = (if sanitize U (strings.TrimSuffix filename (filepath.Ext filename)) = []
                then "video".toList
                else sanitize U (strings.TrimSuffix filename (filepath.Ext filename)))
            ++ "-".toList ++ randHex env.rnd 6)
      ∧ sanitize U (strings.TrimSuffix "!!!.mov".toList (filepath.Ext "!!!.mov".toList)) = []
      ∧ sanitize U (strings.TrimSuffix ".mov".toList (filepath.Ext ".mov".toList)) = [] := by
  have hn : (if sanitize U (strings.TrimSuffix filename (filepath.Ext filename)) = []
      then "video".toList
      else sanitize U (strings.TrimSuffix filename (filepath.Ext filename)))
      = uploadName U filename := rfl
  rw [hn]
  have hb : uploadName U filename ++ "-".toList ++ randHex env.rnd 6
      = uniqueBase env.rnd (uploadName U filename) := rfl
  have hp : "uploads/".toList ++ uploadName U filename ++ "-".toList ++ randHex env.rnd 6
        ++ ".mov".toList
      = "uploads/".toList ++ uniqueBase env.rnd (uploadName U filename) ++ ".mov".toList := by
    rw [← hb]
    simp only [List.append_assoc]
  rw [hp, hb]
  refine ⟨?_, ?_, ?_, ?_⟩
  · rw [saveUpload_eq]
    split
    · exact ⟨[], rfl⟩
    · split
      · exact ⟨[Event.copy _], by rw [List.append_right_inj]⟩
      · exact ⟨[Event.copy _], by rw [List.append_right_inj]⟩
  · intro full base h
    rw [saveUpload_eq] at h
    split at h
    · cases h
    · split at h
      · cases h
      · simp only [Except.ok.injEq, Prod.mk.injEq] at h
        exact h.2.symm
  · rw [sanitize_flatMap]
    decide
  · rw [sanitize_flatMap]
    decide

/-- C9 at the sample environment with the filename `!!!.mov`: the upload is
saved and its base name is `video-0b1b2b3b4b5b`. -/
theorem C9_fallback_name_witness :
    (saveUpload UnicodeTables.latin1 Env.sample "!!!.mov".toList []).1
        = .ok ("uploads/video-0b1b2b3b4b5b.mov".toList, "video-0b1b2b3b4b5b".toList)
      ∧ "video-0b1b2b3b4b5b".toList
        = (if sanitize UnicodeTables.latin1
              (strings.TrimSuffix "!!!.mov".toList (filepath.Ext "!!!.mov".toList)) = []
            then "video".toList
            else sanitize UnicodeTables.latin1
              (strings.TrimSuffix "!!!.mov".toList (filepath.Ext "!!!.mov".toList)))
          ++ "-".toList ++ randHex Env.sample.rnd 6 :=
  ⟨by decide,
    (C9_fallback_name UnicodeTables.latin1 Env.sample "!!!.mov".toList []).2.1
      "uploads/video-0b1b2b3b4b5b.mov".toList "video-0b1b2b3b4b5b".toList (by decide)⟩

/-- C10: every run of `handleUploadAndConvert` extends the event log by
events among which there is at most one process launch.  When there is one,
the upload passed the extension check, `saveUpload` succeeded on it in this
run with the path `uploads/<base>.mov` and the base name `<base>`, the launch
is the last event, after the creation and the copy of that file, the command
is `ffmpeg`, its input argument is `uploads/<base>.mov` and its last argument
is `uploads/<base>.<target>`.  When the run succeeds there was such a launch
and the returned name is `<base>.<target>`. -/
theorem C10_single_launch (U : UnicodeTables) (env : Env) (target : GoString)
    (log : List Event) :
    ∃ events, (handleUploadAndConvert U env target log).2 = log ++ events
      ∧ (events.filter Event.isExec).length ≤ 1
      ∧ (∀ name args, Event.exec name args ∈ events →
          ∃ f base, env.filename = some f
            ∧ strings.EqualFold U (filepath.Ext f) ".mov".toList = true
            ∧ (saveUpload U env f (log ++ [Event.parseForm, Event.formFile "video".toList])).1
              = .ok ("uploads/".toList ++ base ++ ".mov".toList, base)
            ∧ events = [Event.parseForm, Event.formFile "video".toList,
                Event.create ("uploads/".toList ++ base ++ ".mov".toList),
                Event.copy ("uploads/".toList ++ base ++ ".mov".toList),
                Event.exec name args]
            ∧ name = "ffmpeg".toList
            ∧ args.get? 2 = some ("uploads/".toList ++ base ++ ".mov".toList)
            ∧ args.getLast? = some ("uploads/".toList ++ base ++ ".".toList ++ target))
      ∧ (∀ outName, (handleUploadAndConvert U env target log).1 = .ok outName →
          ∃ f base args, env.filename = some f
            ∧ (saveUpload U env f (log ++ [Event.parseForm, Event.formFile "video".toList])).1
              = .ok ("uploads/".toList ++ base ++ ".mov".toList, base)
            ∧ Event.exec "ffmpeg".toList args ∈ events
            ∧ outName = base ++ ".".toList ++ target) := by
  rcases handle_outcome U env target log with
    ⟨err, events, h1, _, h3, _⟩ | ⟨f, args, _, h2, h3, h4, _, h6, h7, h8⟩
  · refine ⟨events, by rw [h1], ?_, ?_, ?_⟩
    · have : events.filter Event.isExec = [] := by
        rw [List.filter_eq_nil_iff]
        intro e he
        rw [h3 e he]
        exact Bool.false_ne_true
      rw [this]
      exact Nat.zero_le 1
    · intro name args hm
      exact absurd (h3 _ hm) (by simp [Event.isExec])
    · intro outName h
      rw [h1] at h
      cases h
  · refine ⟨_, by rw [h8], ?_, ?_, ?_⟩
    · exact Nat.le_refl 1
    · intro name args' hm
      simp only [List.mem_cons, List.mem_singleton, List.not_mem_nil, or_false] at hm
      rcases hm with hm | hm | hm | hm | hm
      · cases hm
      · cases hm
      · cases hm
      · cases hm
      · obtain ⟨e1, e2⟩ := Event.exec.inj hm
        subst e1 e2
        exact ⟨f, _, h2, h3, by rw [h4], rfl, rfl, h6, h7⟩
    · intro outName h
      rw [h8] at h
      refine ⟨f, _, args, h2, by rw [h4], ?_, ?_⟩
      · simp only [List.mem_cons, List.mem_singleton, true_or, or_true]
      · cases hr : env.run "ffmpeg".toList args with
        | none =>
          rw [hr] at h
          exact (Except.ok.inj h).symm
        | some e =>
          rw [hr] at h
          cases h

/-- C10 at the sample environment: the run succeeds with the name
`my-video-2024-0b1b2b3b4b5b.mp4` after one launch of `ffmpeg`. -/
theorem C10_single_launch_witness :
    handleUploadAndConvert UnicodeTables.latin1 Env.sample "mp4".toList []
      = (.ok "my-video-2024-0b1b2b3b4b5b.mp4".toList,
          [Event.parseForm, Event.formFile "video".toList,
            Event.create "uploads/my-video-2024-0b1b2b3b4b5b.mov".toList,
            Event.copy "uploads/my-video-2024-0b1b2b3b4b5b.mov".toList,
            Event.exec "ffmpeg".toList
              ["-y".toList, "-i".toList, "uploads/my-video-2024-0b1b2b3b4b5b.mov".toList,
                "-vcodec".toList, "libx264".toList, "-preset".toList, "veryfast".toList,
                "-crf".toList, "23".toList, "-acodec".toList, "aac".toList,
                "-b:a".toList, "128k".toList, "-movflags".toList, "+faststart".toList,
                "uploads/my-video-2024-0b1b2b3b4b5b.mp4".toList]])
      ∧ ∃ events, (handleUploadAndConvert UnicodeTables.latin1 Env.sample "mp4".toList []).2
          = [] ++ events ∧ (events.filter Event.isExec).length ≤ 1 := by
  refine ⟨by decide, ?_⟩
  obtain ⟨events, h1, h2, _⟩ :=
    C10_single_launch UnicodeTables.latin1 Env.sample "mp4".toList []
  exact ⟨events, h1, h2⟩

end Stacking
